import Mathlib

/-!
Verification development for the `ollama-renamer` utility (`src/main.rs`).

The program is a sequential CLI tool driving an HTTP API.  We embed it
shallowly: strings are Lean `String`s manipulated through their underlying
`List Char` (mirroring Rust's byte/char level `split`, `find`, `truncate`,
`trim`); every network call is resolved against an explicit `World` of
prerecorded outcomes, and each workflow run returns the ordered trace of
network operations it issued together with its `Except` result.
-/

namespace OllamaRenamer

/-! ### Character-list utilities mirroring Rust `str` operations -/

/-- `splitOnChar sep l` mirrors Rust's `str::split(sep)` collected to a list:
the (always non-empty) list of maximal `sep`-free chunks. -/
def splitOnChar (sep : Char) : List Char → List (List Char)
  | [] => [[]]
  | c :: cs =>
    if c = sep then
      [] :: splitOnChar sep cs
    else
      match splitOnChar sep cs with
      | [] => [[c]]
      | s :: rest => (c :: s) :: rest

/-- Interleave a separator between chunks (inverse of `splitOnChar`). -/
def joinSep (sep : Char) : List (List Char) → List Char
  | [] => []
  | [s] => s
  | s :: ss => s ++ sep :: joinSep sep ss

/-- First index at which `pat` occurs as a contiguous sublist, mirroring
Rust's `str::find(pat)`. -/
def findSubIdx (pat : List Char) : List Char → Option Nat
  | [] => if pat.isEmpty then some 0 else none
  | c :: cs =>
    if pat.isPrefixOf (c :: cs) then some 0
    else (findSubIdx pat cs).map (· + 1)

/-- `truncAtFirst s pat` mirrors one iteration of the Rust noise-marker loop:
`if let Some(pos) = s.find(pat) { s.truncate(pos) }`. -/
def truncAtFirst (s pat : List Char) : List Char :=
  match findSubIdx pat s with
  | some i => s.take i
  | none => s

/-- Rust `str::trim` on the character list (whitespace from both ends). -/
def trimChars (l : List Char) : List Char :=
  ((l.dropWhile Char.isWhitespace).reverse.dropWhile Char.isWhitespace).reverse

/-- Rust `str::trim` lifted to `String`. -/
def trimString (s : String) : String := ⟨trimChars s.data⟩

/-! ### Name validation (`validate_model_name`, src/main.rs lines 304-312)

The Rust code tests the regex
`^(?:[A-Za-z0-9._-]+/)*[A-Za-z0-9._-]+(?:[:][A-Za-z0-9._-]+)?$`.
Since the allowed segment/tag characters exclude both `/` and `:`, a string
matches exactly when: splitting on `:` yields either `[base]` or
`[base, tag]` with a non-empty all-allowed `tag`, and every `/`-chunk of
`base` is non-empty and all-allowed.  `validNameB` is that decision
procedure. -/

/-- The regex character class `[A-Za-z0-9._-]`. -/
def isNameChar (c : Char) : Bool :=
  c.isAlpha || c.isDigit || c = '.' || c = '_' || c = '-'

/-- A non-empty run of allowed characters (one regex path segment / tag). -/
def nameSeg (l : List Char) : Bool :=
  !l.isEmpty && l.all isNameChar

/-- Boolean semantics of the `validate_model_name` regex. -/
def validNameB (cs : List Char) : Bool :=
  match splitOnChar ':' cs with
  | [base] => (splitOnChar '/' base).all nameSeg
  | [base, tag] => (splitOnChar '/' base).all nameSeg && nameSeg tag
  | _ => false

/-- `validate_model_name` (src/main.rs lines 304-312). -/
def validate_model_name (s : String) : Except String Unit :=
  if validNameB s.data then .ok ()
  else .error "Invalid name. Use letters, numbers, . _ - / and optional :tag"

/-- Spec-side grammar for C8, following the spec's words: one or more
`/`-separated non-empty segments over the allowed class, followed by an
optional `:`-prefixed non-empty tag of the same class. -/
def ValidNameSpec (s : String) : Prop :=
  ∃ (segs : List (List Char)) (tag : Option (List Char)),
    segs ≠ [] ∧
    (∀ seg ∈ segs, seg ≠ [] ∧ seg.all isNameChar = true) ∧
    (∀ t, tag = some t → t ≠ [] ∧ t.all isNameChar = true) ∧
    s.data = joinSep '/' segs ++ (match tag with | none => [] | some t => ':' :: t)

/-! ### Name suggestion (`suggest_simple_name`, src/main.rs lines 314-330) -/

/-- The fixed ordered list of noise markers (src/main.rs lines 321-324). -/
def noiseMarkers : List (List Char) :=
  (["-GGUF", "-gguf", ".gguf", "-Q2", "-Q3", "-Q4", "-Q5", "-Q6", "-Q8", "-K",
    "_K", "-KM", "_KM", "-K_M", "_K_M", "-Q4_K", "_Q4_K", "-Q5_K", "_Q5_K"]
    : List String).map String.data

/-- `suggest_simple_name` (src/main.rs lines 314-330): strip the `:tag`
(`split(':').next()`), keep the last `/` segment (`split('/').last()`), then
run the `for pat in [...] { if let Some(pos) = s.find(pat) { s.truncate(pos) } }`
loop, i.e. a left fold of `truncAtFirst` over the whole marker list. -/
def suggest_simple_name (full : String) : String :=
  let before_tag := full.data.takeWhile (· ≠ ':')
  let last := (splitOnChar '/' before_tag).getLastD before_tag
  ⟨noiseMarkers.foldl truncAtFirst last⟩

/-- Spec-side suggestion for C6 as stated: after tag-strip and last-segment,
scan the marker list in order and apply only the single first marker that
matches, truncating there. -/
def specSuggestFirstMatch (full : String) : String :=
  let before_tag := (splitOnChar ':' full.data).headD full.data
  let last := (splitOnChar '/' before_tag).getLastD before_tag
  match noiseMarkers.find? (fun p => (findSubIdx p last).isSome) with
  | some p =>
    match findSubIdx p last with
    | some i => ⟨last.take i⟩
    | none => ⟨last⟩
  | none => ⟨last⟩

/-- Spec-side description of what the code actually does (amended C6):
tag-strip via split-once-on-`:`, last `/`-segment, then truncate at each
marker of the list in order, cumulatively. -/
def truncAll : List Char → List (List Char) → List Char
  | s, [] => s
  | s, p :: ps => truncAll (truncAtFirst s p) ps

/-- Amended-C6 reference function written from the amended wording. -/
def specSuggestCumulative (full : String) : String :=
  let before_tag := (splitOnChar ':' full.data).headD full.data
  let last := (splitOnChar '/' before_tag).getLastD before_tag
  ⟨truncAll last noiseMarkers⟩

/-! ### Except helpers -/

/-- `true` on `Except.ok`. -/
def exceptIsOk {ε α : Type} : Except ε α → Bool
  | .ok _ => true
  | .error _ => false

/-- Rust's `Result::unwrap_or`: the value on `ok`, the default on `error`. -/
def exceptGetD {ε α : Type} (d : α) : Except ε α → α
  | .ok a => a
  | .error _ => d

instance {ε α : Type} [DecidableEq ε] [DecidableEq α] : DecidableEq (Except ε α) := fun x y =>
  match x, y with
  | .ok a, .ok b =>
    if h : a = b then .isTrue (by rw [h]) else .isFalse (by intro hc; cases hc; exact h rfl)
  | .error a, .error b =>
    if h : a = b then .isTrue (by rw [h]) else .isFalse (by intro hc; cases hc; exact h rfl)
  | .ok _, .error _ => .isFalse (by intro hc; cases hc)
  | .error _, .ok _ => .isFalse (by intro hc; cases hc)

/-! ### Loaded-model check (`model_is_running`, src/main.rs lines 425-440)

`PsFetch` records the outcome of `GET /api/ps` as the code observes it:
the `send()` call can fail at the transport level (`transportErr`), succeed
with a non-success HTTP status (`failStatus`), or succeed with a success
status, in which case the body either decodes to a `PsResponse`
(`okStatus (some body)`) or fails to decode (`okStatus none`). -/

/-- Rust `RunningModel { name: Option<String> }`. -/
structure RunningModel where
  name : Option String
deriving DecidableEq

/-- Rust `PsResponse { models: Option<Vec<RunningModel>> }`. -/
structure PsBody where
  models : Option (List RunningModel)
deriving DecidableEq

/-- Observable outcome of the `GET /api/ps` request. -/
inductive PsFetch where
  | transportErr (msg : String)
  | failStatus (code : String)
  | okStatus (decoded : Option PsBody)
deriving DecidableEq

/-- `model_is_running` (src/main.rs lines 425-440).  Transport failure
propagates via `?`; a non-success status returns `Ok(false)`; a decode
failure propagates via `?`; otherwise the decoded list is searched by
exact name. -/
def model_is_running (fetch : PsFetch) (name : String) : Except String Bool :=
  match fetch with
  | .transportErr m => .error ("GET /api/ps failed: " ++ m)
  | .failStatus _ => .ok false
  | .okStatus none => .error "Decode /api/ps JSON"
  | .okStatus (some body) =>
      .ok (((body.models.getD []).filterMap RunningModel.name).any (· == name))

/-- The names in a decoded `/api/ps` body (spec: "the decoded running list"). -/
def specRunningList (body : PsBody) : List String :=
  (body.models.getD []).filterMap RunningModel.name

/-! ### Delete operation (`delete_model`, src/main.rs lines 482-519)

The two HTTP attempts (DELETE, then POST, both with body `{model: name}` to
the same `/api/delete` path) are parameterized by their observable outcomes,
and the CLI fallback (`ollama rm`) by its `Except` result. -/

/-- Observable outcome of one HTTP request: transport error, or a returned
status (with `success` = `status().is_success()` and the status text). -/
inductive HttpAttempt where
  | transportErr (msg : String)
  | status (success : Bool) (code : String)
deriving DecidableEq

/-- Requests issued by `delete_model`. -/
inductive DelOp where
  | httpDelete (name : String)
  | httpPost (name : String)
  | cliRm (name : String)
deriving DecidableEq

/-- `delete_model` (src/main.rs lines 482-519): closure `try_delete` issues
DELETE; a transport error propagates via `?`; a non-success status triggers
one POST with the same body; if both statuses are non-success the combined
failure names both; on any `try_delete` error, `cli_rm` runs iff
`use_cli_fallback`. -/
def delete_model (name : String) (del post : HttpAttempt)
    (use_cli_fallback : Bool) (cli : Except String Unit) :
    List DelOp × Except String Unit :=
  let tryRes : List DelOp × Except String Unit :=
    match del with
    | .transportErr m => ([.httpDelete name], .error m)
    | .status true _ => ([.httpDelete name], .ok ())
    | .status false c1 =>
      match post with
      | .transportErr m => ([.httpDelete name, .httpPost name], .error m)
      | .status true _ => ([.httpDelete name, .httpPost name], .ok ())
      | .status false c2 =>
          ([.httpDelete name, .httpPost name],
            .error ("Delete failed: " ++ c1 ++ " / " ++ c2))
  match tryRes with
  | (tr, .ok _) => (tr, .ok ())
  | (tr, .error e) =>
    if use_cli_fallback then
      match cli with
      | .ok _ => (tr ++ [.cliRm name], .ok ())
      | .error ce => (tr ++ [.cliRm name], .error ce)
    else (tr, .error e)

/-- `true` exactly on the POST op. -/
def isHttpPost : DelOp → Bool
  | .httpPost _ => true
  | _ => false

/-! ### Rename workflows (src/main.rs lines 149-302)

The workflow functions are embedded against a `World` of prerecorded
network outcomes: the `/api/tags` listing (used by `list_models` and, via a
re-fetch of the same server state, by `model_exists`), the `/api/ps`
outcome, and the per-request results of `copy_model` and `delete_model`
(whose internal HTTP/CLI-fallback structure, driven by `use_cli_fallback`,
is abstracted into the recorded outcome; it is modelled at full granularity
by `delete_model` above).  Each run returns the ordered list of network
operations it issued together with its result. -/

/-- Rust `ModelInfo` restricted to the fields the workflows read
(`size` is display-only there). -/
structure ModelInfo where
  name : String
  modified_at : Option String
deriving DecidableEq

/-- Prerecorded outcomes of the daemon's API for one run. -/
structure World where
  tags : Except String (List ModelInfo)
  ps : PsFetch
  copyRes : String → String → Except String Unit
  deleteRes : String → Except String Unit

/-- Network operations of the rename workflow, in issue order.
`listTags` is the interactive initial listing; `checkExists` is the
`model_exists` re-fetch; `runningCheck` is the `model_is_running` call;
`deleteOp`/`copyOp` are `delete_model`/`copy_model` invocations. -/
inductive Op where
  | listTags
  | checkExists (name : String)
  | runningCheck (name : String)
  | deleteOp (name : String)
  | copyOp (src : String) (dst : String)
deriving DecidableEq

/-- `true` exactly on `deleteOp`. -/
def isDeleteOp : Op → Bool
  | .deleteOp _ => true
  | _ => false

/-- The distinct failure exits of the two workflows (each corresponds to one
`bail!`/error-context site in src/main.rs). -/
inductive RenameError where
  | invalidName (msg : String)
  | listFailed (msg : String)
  | noModels
  | destEqualsSource
  | destinationExists (name : String)
  | deleteDestFailed (name : String) (msg : String)
  | copyFailed (src : String) (dst : String) (msg : String)
  | sourceLoaded (name : String)
  | deleteOriginalFailed (name : String) (msg : String)
deriving DecidableEq

/-- The effective loaded-model check as both call sites use it:
`model_is_running(...).unwrap_or(false)`. -/
def effRunning (w : World) (name : String) : Bool :=
  exceptGetD false (model_is_running w.ps name)

/-- `model_exists` (src/main.rs lines 580-583): re-fetch the listing and
test membership by exact name. -/
def model_exists (w : World) (name : String) : Except String Bool :=
  match w.tags with
  | .error e => .error e
  | .ok models => .ok (models.any (·.name == name))

/-- src/main.rs lines 288-301: the tail of `run_non_interactive` after the
destination-existence stage — the copy, then the optional guarded delete of
the original.  `tr` is the trace accumulated so far. -/
def rni_after_dest (w : World) (src dst : String)
    (delete_original force : Bool) (tr : List Op) :
    List Op × Except RenameError Unit :=
  match w.copyRes src dst with
  | .error e => (tr ++ [.copyOp src dst], .error (.copyFailed src dst e))
  | .ok _ =>
    let tr := tr ++ [.copyOp src dst]
    if delete_original then
      if force then
        match w.deleteRes src with
        | .error e => (tr ++ [.deleteOp src], .error (.deleteOriginalFailed src e))
        | .ok _ => (tr ++ [.deleteOp src], .ok ())
      else
        let tr := tr ++ [.runningCheck src]
        if effRunning w src then (tr, .error (.sourceLoaded src))
        else
          match w.deleteRes src with
          | .error e => (tr ++ [.deleteOp src], .error (.deleteOriginalFailed src e))
          | .ok _ => (tr ++ [.deleteOp src], .ok ())
    else (tr, .ok ())

/-- `run_non_interactive` (src/main.rs lines 252-302): trim both names,
validate the destination, short-circuit on `dry_run`, handle an existing
destination (`--overwrite` deletes it first, otherwise bail), copy, then
optionally delete the original behind the `!force && running` guard.
`use_cli_fallback` is threaded to `copy_model`/`delete_model` in the source;
here those outcomes are recorded in `w`, so the flag is carried but unused. -/
def run_non_interactive (w : World) (from_ to_ : String)
    (delete_original force dry_run use_cli_fallback overwrite : Bool) :
    List Op × Except RenameError Unit :=
  let to' := trimString to_
  let from' := trimString from_
  match validate_model_name to' with
  | .error e => ([], .error (.invalidName e))
  | .ok _ =>
    if dry_run then ([], .ok ())
    else
      match w.tags with
      | .error e => ([.checkExists to'], .error (.listFailed e))
      | .ok models =>
        if models.any (·.name == to') then
          if overwrite then
            match w.deleteRes to' with
            | .error e =>
                ([.checkExists to', .deleteOp to'], .error (.deleteDestFailed to' e))
            | .ok _ =>
                rni_after_dest w from' to' delete_original force
                  [.checkExists to', .deleteOp to']
          else ([.checkExists to'], .error (.destinationExists to'))
        else rni_after_dest w from' to' delete_original force [.checkExists to']

/-- The Rust comparator of src/main.rs lines 162-166 on `Option<String>`:
`None < Some`, `Some` compared lexicographically. -/
def cmpOptStr : Option String → Option String → Ordering
  | none, none => .eq
  | none, some _ => .lt
  | some _, none => .gt
  | some a, some b => compare a b

/-- "`a` sorts no later than `b`": `b.modified_at.cmp(&a.modified_at)
.then_with(|| a.name.cmp(&b.name))` is not `Greater`. -/
def modelLe (a b : ModelInfo) : Bool :=
  ((cmpOptStr b.modified_at a.modified_at).then (compare a.name b.name)) ≠ .gt

/-- Stable insertion step for `sortByLe`. -/
def insertLe {α : Type} (le : α → α → Bool) (x : α) : List α → List α
  | [] => [x]
  | y :: ys => if le x y then x :: y :: ys else y :: insertLe le x ys

/-- Stable sort by a boolean `le`, modelling Rust's stable `sort_by`. -/
def sortByLe {α : Type} (le : α → α → Bool) : List α → List α
  | [] => []
  | x :: xs => insertLe le x (sortByLe le xs)

/-- The answers the interactive user gives to the dialoguer prompts.
`enteredName` is the text accepted by the `Input` prompt (whose
`validate_with(validate_model_name)` re-prompts until it passes, so in a
real run it satisfies the validator). -/
structure UserInput where
  selectIdx : Nat
  enteredName : String
  confirmOverwrite : Bool
  confirmDelete : Bool
  confirmDeleteRunning : Bool

/-- src/main.rs lines 208-249: the tail of `run_interactive` from the copy
onward (copy, offer delete, loaded-model confirmation, delete). -/
def ri_after_dest (w : World) (src dst : String) (ui : UserInput)
    (tr : List Op) : List Op × Except RenameError Unit :=
  match w.copyRes src dst with
  | .error e => (tr ++ [.copyOp src dst], .error (.copyFailed src dst e))
  | .ok _ =>
    let tr := tr ++ [.copyOp src dst]
    if !ui.confirmDelete then (tr, .ok ())
    else
      let tr := tr ++ [.runningCheck src]
      if effRunning w src && !ui.confirmDeleteRunning then (tr, .ok ())
      else
        match w.deleteRes src with
        | .error e => (tr ++ [.deleteOp src], .error (.deleteOriginalFailed src e))
        | .ok _ => (tr ++ [.deleteOp src], .ok ())

/-- `run_interactive` (src/main.rs lines 149-250): list and sort the models,
select one, read a destination name, bail if it equals the source, confirm
before overwriting an existing destination (declining returns success),
copy, then offer the delete with a confirmation when the model appears
loaded.  `FuzzySelect` only returns valid indices; out-of-range
`ui.selectIdx` falls back to a dummy record. -/
def run_interactive (w : World) (ui : UserInput) :
    List Op × Except RenameError Unit :=
  match w.tags with
  | .error e => ([.listTags], .error (.listFailed e))
  | .ok models =>
    if models.isEmpty then ([.listTags], .error .noModels)
    else
      let sorted := sortByLe modelLe models
      let chosen := sorted.getD ui.selectIdx ⟨"", none⟩
      let new_name := trimString ui.enteredName
      if new_name = chosen.name then ([.listTags], .error .destEqualsSource)
      else
        let tr := [Op.listTags, Op.checkExists new_name]
        if models.any (·.name == new_name) then
          if !ui.confirmOverwrite then (tr, .ok ())
          else
            match w.deleteRes new_name with
            | .error e => (tr ++ [.deleteOp new_name], .error (.deleteDestFailed new_name e))
            | .ok _ => ri_after_dest w chosen.name new_name ui (tr ++ [.deleteOp new_name])
        else ri_after_dest w chosen.name new_name ui tr

/-! ## General lemmas about the character-list utilities -/

theorem splitOnChar_ne_nil (sep : Char) (l : List Char) : splitOnChar sep l ≠ [] := by
  induction l with
  | nil => simp [splitOnChar]
  | cons c cs ih =>
    by_cases hc : c = sep
    · simp [splitOnChar, hc]
    · cases h : splitOnChar sep cs with
      | nil => exact absurd h ih
      | cons s rest => simp [splitOnChar, hc, h]

theorem joinSep_splitOnChar (sep : Char) (l : List Char) :
    joinSep sep (splitOnChar sep l) = l := by
  induction l with
  | nil => rfl
  | cons c cs ih =>
    by_cases hc : c = sep
    · subst hc
      cases h : splitOnChar c cs with
      | nil => exact absurd h (splitOnChar_ne_nil _ _)
      | cons s rest =>
        rw [h] at ih
        simp [splitOnChar, h, joinSep, ih]
    · cases h : splitOnChar sep cs with
      | nil => exact absurd h (splitOnChar_ne_nil _ _)
      | cons s rest =>
        rw [h] at ih
        cases rest with
        | nil => simp [splitOnChar, hc, h, joinSep] at ih ⊢; exact ih
        | cons r rs => simp [splitOnChar, hc, h, joinSep] at ih ⊢; exact ih

theorem splitOnChar_of_not_mem {sep : Char} {l : List Char} (h : sep ∉ l) :
    splitOnChar sep l = [l] := by
  induction l with
  | nil => rfl
  | cons c cs ih =>
    have hc : ¬ c = sep := by rintro rfl; exact h (List.mem_cons_self _ _)
    have hcs : sep ∉ cs := fun hm => h (List.mem_cons_of_mem _ hm)
    simp [splitOnChar, hc, ih hcs]

theorem splitOnChar_append_sep {sep : Char} {p : List Char} (h : sep ∉ p) (t : List Char) :
    splitOnChar sep (p ++ sep :: t) = p :: splitOnChar sep t := by
  induction p with
  | nil => simp [splitOnChar]
  | cons c cs ih =>
    have hc : ¬ c = sep := by rintro rfl; exact h (List.mem_cons_self _ _)
    have hcs : sep ∉ cs := fun hm => h (List.mem_cons_of_mem _ hm)
    simp [splitOnChar, hc, ih hcs]

theorem splitOnChar_joinSep {sep : Char} {parts : List (List Char)} (hne : parts ≠ [])
    (hsep : ∀ p ∈ parts, sep ∉ p) :
    splitOnChar sep (joinSep sep parts) = parts := by
  induction parts with
  | nil => exact absurd rfl hne
  | cons p ps ih =>
    cases ps with
    | nil =>
      simp [joinSep, splitOnChar_of_not_mem (hsep p (List.mem_cons_self _ _))]
    | cons q qs =>
      have h1 : sep ∉ p := hsep p (List.mem_cons_self _ _)
      have he : joinSep sep (p :: q :: qs) = p ++ sep :: joinSep sep (q :: qs) := rfl
      rw [he, splitOnChar_append_sep h1,
        ih (by simp) (fun r hr => hsep r (List.mem_cons_of_mem _ hr))]

theorem mem_joinSep {sep : Char} {parts : List (List Char)} {c : Char}
    (h : c ∈ joinSep sep parts) : c = sep ∨ ∃ p ∈ parts, c ∈ p := by
  induction parts with
  | nil => simp [joinSep] at h
  | cons p ps ih =>
    cases ps with
    | nil =>
      simp [joinSep] at h
      exact Or.inr ⟨p, List.mem_cons_self _ _, h⟩
    | cons q qs =>
      have he : joinSep sep (p :: q :: qs) = p ++ sep :: joinSep sep (q :: qs) := rfl
      rw [he] at h
      rcases List.mem_append.mp h with hp | hrest
      · exact Or.inr ⟨p, List.mem_cons_self _ _, hp⟩
      · rcases List.mem_cons.mp hrest with hceq | hjoin
        · exact Or.inl hceq
        · rcases ih hjoin with hs | ⟨r, hr, hcr⟩
          · exact Or.inl hs
          · exact Or.inr ⟨r, List.mem_cons_of_mem _ hr, hcr⟩

theorem isNameChar_ne {c : Char} (h : isNameChar c = true) : c ≠ ':' ∧ c ≠ '/' := by
  constructor <;> rintro rfl <;> exact absurd h (by decide)

theorem nameSeg_of {p : List Char} (h1 : p ≠ []) (h2 : p.all isNameChar = true) :
    nameSeg p = true := by
  cases p with
  | nil => exact absurd rfl h1
  | cons a as => simpa [nameSeg] using h2

theorem of_nameSeg {p : List Char} (h : nameSeg p = true) :
    p ≠ [] ∧ p.all isNameChar = true := by
  cases p with
  | nil => exact absurd h (by decide)
  | cons a as =>
    refine ⟨by simp, ?_⟩
    simpa [nameSeg] using h

/-! ## Claim C8 -/

/-- Claim C8 (confirmed): `validate_model_name` succeeds exactly for strings
of one or more `/`-separated non-empty segments over letters, digits, `.`,
`_`, `-`, followed by an optional `:`-prefixed non-empty tag of the same
character class; every other string (empty string, disallowed character,
empty segment, empty tag) is rejected. -/
theorem validate_model_name_ok_iff (s : String) :
    validate_model_name s = .ok () ↔ ValidNameSpec s := by
  constructor
  · intro h
    have hv : validNameB s.data = true := by
      by_contra hb
      rw [validate_model_name] at h
      rw [Bool.not_eq_true] at hb
      rw [hb] at h
      exact absurd h (by simp)
    have hjoin := joinSep_splitOnChar ':' s.data
    rcases h2 : splitOnChar ':' s.data with _ | ⟨base, _ | ⟨tag, _ | ⟨x, rest⟩⟩⟩
    · exact absurd h2 (splitOnChar_ne_nil _ _)
    · rw [validNameB, h2] at hv
      rw [h2] at hjoin
      refine ⟨splitOnChar '/' base, none, splitOnChar_ne_nil _ _, ?_, ?_, ?_⟩
      · intro seg hseg
        exact of_nameSeg (List.all_eq_true.mp hv seg hseg)
      · intro t ht
        exact absurd ht (by simp)
      · have hbase : joinSep '/' (splitOnChar '/' base) = base := joinSep_splitOnChar _ _
        rw [hbase, List.append_nil]
        exact hjoin.symm
    · rw [validNameB, h2] at hv
      rw [h2] at hjoin
      rw [Bool.and_eq_true] at hv
      refine ⟨splitOnChar '/' base, some tag, splitOnChar_ne_nil _ _, ?_, ?_, ?_⟩
      · intro seg hseg
        exact of_nameSeg (List.all_eq_true.mp hv.1 seg hseg)
      · intro t ht
        cases ht
        exact of_nameSeg hv.2
      · have hbase : joinSep '/' (splitOnChar '/' base) = base := joinSep_splitOnChar _ _
        rw [hbase]
        have he : joinSep ':' [base, tag] = base ++ ':' :: tag := rfl
        rw [he] at hjoin
        exact hjoin.symm
    · rw [validNameB, h2] at hv
      exact absurd hv (by simp)
  · rintro ⟨segs, tag, hne, hsegs, htag, heq⟩
    have hBc : ':' ∉ joinSep '/' segs := by
      intro hc
      rcases mem_joinSep hc with h | ⟨p, hp, hcp⟩
      · exact absurd h (by decide)
      · exact (isNameChar_ne (List.all_eq_true.mp (hsegs p hp).2 _ hcp)).1 rfl
    have hsegSlash : ∀ p ∈ segs, '/' ∉ p := by
      intro p hp hm
      exact (isNameChar_ne (List.all_eq_true.mp (hsegs p hp).2 _ hm)).2 rfl
    have hallB : (splitOnChar '/' (joinSep '/' segs)).all nameSeg = true := by
      rw [splitOnChar_joinSep hne hsegSlash]
      exact List.all_eq_true.mpr fun p hp => nameSeg_of (hsegs p hp).1 (hsegs p hp).2
    cases tag with
    | none =>
      rw [List.append_nil] at heq
      have hsp : splitOnChar ':' s.data = [joinSep '/' segs] := by
        rw [heq]
        exact splitOnChar_of_not_mem hBc
      rw [validate_model_name, validNameB, hsp]
      simp [hallB]
    | some t =>
      have ht := htag t rfl
      have htc : ':' ∉ t := fun hm =>
        (isNameChar_ne (List.all_eq_true.mp ht.2 _ hm)).1 rfl
      have hsp : splitOnChar ':' s.data = [joinSep '/' segs, t] := by
        rw [heq, splitOnChar_append_sep hBc, splitOnChar_of_not_mem htc]
      rw [validate_model_name, validNameB, hsp]
      simp [hallB, nameSeg_of ht.1 ht.2]

/-- Witness for C8: a grammatical name is accepted (via `mpr` at a concrete
spec derivation would be circular, so we use `mp` on a concrete accepted
string, and `mpr` to refute a string with a space). -/
theorem validate_model_name_ok_iff_witness :
    ValidNameSpec "hf.co/org/x:q4" ∧ ¬ ValidNameSpec "a b" :=
  ⟨(validate_model_name_ok_iff "hf.co/org/x:q4").mp (by decide),
   fun hv => absurd ((validate_model_name_ok_iff "a b").mpr hv) (by decide)⟩

/-! ## Claim C9 -/

/-- Claim C9 (confirmed): on the input whose last path segment starts with
the noise marker "-GGUF" (namely "x/" followed by "-GGUF" and the tag ":q"),
`suggest_simple_name` returns the empty string,
which `validate_model_name` rejects: the suggested default name is not
guaranteed to pass validation. -/
theorem suggest_can_fail_validation :
    suggest_simple_name "x/-GGUF:q" = "" ∧
    exceptIsOk (validate_model_name (suggest_simple_name "x/-GGUF:q")) = false := by
  decide

/-! ## Claim C6 -/

theorem headD_splitOnChar (sep : Char) (l d : List Char) :
    (splitOnChar sep l).headD d = l.takeWhile (· ≠ sep) := by
  induction l with
  | nil => rfl
  | cons c cs ih =>
    by_cases hc : c = sep
    · have hgoal : splitOnChar sep (c :: cs) = [] :: splitOnChar sep cs := by
        simp [splitOnChar, hc]
      have htw : (c :: cs).takeWhile (· ≠ sep) = [] := by
        simp [List.takeWhile_cons, hc]
      rw [hgoal, htw, List.headD_cons]
    · cases h : splitOnChar sep cs with
      | nil => exact absurd h (splitOnChar_ne_nil _ _)
      | cons s rest =>
        rw [h, List.headD_cons] at ih
        have hgoal : splitOnChar sep (c :: cs) = (c :: s) :: rest := by
          simp [splitOnChar, hc, h]
        have htw : (c :: cs).takeWhile (· ≠ sep) = c :: cs.takeWhile (· ≠ sep) := by
          simp [List.takeWhile_cons, hc]
        rw [hgoal, List.headD_cons, htw, ih]

theorem foldl_truncAtFirst (ps : List (List Char)) (s : List Char) :
    ps.foldl truncAtFirst s = truncAll s ps := by
  induction ps generalizing s with
  | nil => rfl
  | cons p ps ih => simp [truncAll, ih]

/-- Counterexample to C6 as stated: on the name composed of "A", "-K" and
"-Q2", the code truncates first at "-Q2" (the first marker in list order
that matches) giving "A-K", but then keeps scanning and also truncates at
"-K", returning "A" — while the claim's apply-only-the-single-first-match
description returns "A-K". -/
theorem suggest_simple_name_first_match_cex :
    suggest_simple_name "A-K-Q2" = "A" ∧
    specSuggestFirstMatch "A-K-Q2" = "A-K" ∧
    suggest_simple_name "A-K-Q2" ≠ specSuggestFirstMatch "A-K-Q2" := by
  decide

/-- Claim C6 (corrected): `suggest_simple_name` strips the tag by splitting
once on the colon and keeping the part before it, keeps the last
slash-separated segment, and then truncates at the first occurrence of each
noise marker of the fixed list in list order, cumulatively — every marker
that still matches the already-truncated string is applied, not only the
single first match.  Concrete evaluations: the two examples given by the
spec, and two inputs where cumulative truncation bites twice. -/
theorem suggest_simple_name_cumulative :
    (∀ s : String, suggest_simple_name s = specSuggestCumulative s) ∧
    suggest_simple_name "hf.co/org/Name-GGUF:Q4_K_M" = "Name" ∧
    suggest_simple_name "qwen3-coder:latest" = "qwen3-coder" ∧
    suggest_simple_name "a_Q4_Kb" = "a_Q4" ∧
    suggest_simple_name "A-K-Q2" = "A" := by
  refine ⟨?_, by decide, by decide, by decide, by decide⟩
  intro s
  rw [suggest_simple_name, specSuggestCumulative]
  rw [headD_splitOnChar, foldl_truncAtFirst]

/-! ## Claim C5 -/

/-- Counterexample to C5 as stated: `model_is_running` does not return
`false` on every failure of the running-processes request — a transport
failure and a decode failure both propagate as errors (the callers, not the
function, apply `unwrap_or(false)`). -/
theorem model_is_running_propagates_cex :
    exceptIsOk (model_is_running (.transportErr "connection refused") "x") = false ∧
    model_is_running (.transportErr "connection refused") "x" ≠ .ok false ∧
    exceptIsOk (model_is_running (.okStatus none) "x") = false ∧
    model_is_running (.okStatus none) "x" ≠ .ok false := by
  decide

/-- Claim C5 (corrected): `model_is_running` returns `Ok false` on a
non-success HTTP status, but propagates transport failures and decode
failures as errors; it returns `Ok true` exactly when the decoded running
list contains an entry whose name equals the queried name; the effective
check — `unwrap_or(false)` as both call sites apply it — is `false` on every
failure and membership of the decoded list otherwise. -/
theorem model_is_running_characterization :
    (∀ n m : String, exceptIsOk (model_is_running (.transportErr m) n) = false) ∧
    (∀ n c : String, model_is_running (.failStatus c) n = .ok false) ∧
    (∀ n : String, exceptIsOk (model_is_running (.okStatus none) n) = false) ∧
    (∀ (n : String) (b : PsBody),
      model_is_running (.okStatus (some b)) n = .ok ((specRunningList b).contains n)) ∧
    (∀ (f : PsFetch) (n : String),
      exceptGetD false (model_is_running f n) =
        match f with
        | .okStatus (some b) => (specRunningList b).contains n
        | _ => false) := by
  have hmem : ∀ (l : List String) (n : String), l.any (· == n) = l.contains n := by
    intro l n
    induction l with
    | nil => rfl
    | cons a as ih =>
      by_cases h : a = n
      · simp [h, List.contains]
      · simp only [List.any_cons, List.contains_cons] at *
        have h1 : (a == n) = false := by simpa using h
        have h2 : (n == a) = false := by simpa using fun he => h he.symm
        rw [h1, h2]
        simpa [List.contains] using ih
  refine ⟨fun n m => rfl, fun n c => rfl, fun n => rfl, ?_, ?_⟩
  · intro n b
    exact congrArg Except.ok (hmem _ _)
  · intro f n
    cases f with
    | transportErr m => rfl
    | failStatus c => rfl
    | okStatus d =>
      cases d with
      | none => rfl
      | some b => exact hmem _ _

/-! ## Claim C7 -/

/-- Claim C7 (confirmed): `delete_model` first issues the HTTP DELETE with
body `{model: name}`; whenever that attempt returns a non-success status it
retries exactly once as an HTTP POST with the same body to the same path
(src/main.rs computes one `url` shared by both requests); and when both
attempts return non-success statuses with CLI fallback disabled, the
surfaced failure combines both attempted statuses. -/
theorem delete_model_retry_policy (name : String) (del post : HttpAttempt)
    (fb : Bool) (cli : Except String Unit) :
    (delete_model name del post fb cli).1.head? = some (.httpDelete name) ∧
    (∀ c, del = .status false c →
      (delete_model name del post fb cli).1.take 2
          = [.httpDelete name, .httpPost name] ∧
      ((delete_model name del post fb cli).1.filter isHttpPost).length = 1) ∧
    (∀ c1 c2, del = .status false c1 → post = .status false c2 → fb = false →
      (delete_model name del post fb cli).2
        = .error ("Delete failed: " ++ c1 ++ " / " ++ c2)) := by
  refine ⟨?_, ?_, ?_⟩
  · rcases del with m | ⟨_ | _, c⟩ <;>
      rcases post with m2 | ⟨_ | _, c2⟩ <;>
      rcases fb with _ | _ <;>
      rcases cli with e | u <;> rfl
  · rintro c rfl
    rcases post with m2 | ⟨_ | _, c2⟩ <;> rcases fb with _ | _ <;> rcases cli with e | u <;>
      exact ⟨rfl, rfl⟩
  · rintro c1 c2 rfl rfl rfl
    rfl

/-- Witness for C7 at a concrete input: DELETE returns 405, the POST retry
returns 404, fallback disabled — the result combines both statuses. -/
theorem delete_model_retry_policy_witness :
    (delete_model "n" (.status false "405") (.status false "404") false (.ok ())).2
      = .error ("Delete failed: " ++ "405" ++ " / " ++ "404") :=
  (delete_model_retry_policy "n" (.status false "405") (.status false "404")
    false (.ok ())).2.2 "405" "404" rfl rfl rfl

/-! ## Workflow lemmas -/

theorem rni_after_dest_trace (w : World) (src dst : String) (dod force : Bool)
    (tr : List Op) :
    ∃ rest, (rni_after_dest w src dst dod force tr).1 = tr ++ Op.copyOp src dst :: rest := by
  cases hc : w.copyRes src dst with
  | error e =>
    exact ⟨[], by simp [rni_after_dest, hc]⟩
  | ok u =>
    cases dod with
    | false => exact ⟨[], by simp [rni_after_dest, hc]⟩
    | true =>
      cases force with
      | true =>
        cases hd : w.deleteRes src with
        | error e => exact ⟨[Op.deleteOp src], by simp [rni_after_dest, hc, hd]⟩
        | ok v => exact ⟨[Op.deleteOp src], by simp [rni_after_dest, hc, hd]⟩
      | false =>
        cases hr : effRunning w src with
        | true => exact ⟨[Op.runningCheck src], by simp [rni_after_dest, hc, hr]⟩
        | false =>
          cases hd : w.deleteRes src with
          | error e =>
            exact ⟨[Op.runningCheck src, Op.deleteOp src],
              by simp [rni_after_dest, hc, hr, hd]⟩
          | ok v =>
            exact ⟨[Op.runningCheck src, Op.deleteOp src],
              by simp [rni_after_dest, hc, hr, hd]⟩

theorem rni_after_dest_guard (w : World) (src dst : String) (tr : List Op)
    (hrun : effRunning w src = true) :
    ∃ extra, (rni_after_dest w src dst true false tr).1 = tr ++ extra ∧
      (∀ n, Op.deleteOp n ∉ extra) ∧
      exceptIsOk (rni_after_dest w src dst true false tr).2 = false := by
  cases hc : w.copyRes src dst with
  | error e =>
    refine ⟨[Op.copyOp src dst], ?_, ?_, ?_⟩ <;>
      simp [rni_after_dest, hc, exceptIsOk]
  | ok u =>
    refine ⟨[Op.copyOp src dst, Op.runningCheck src], ?_, ?_, ?_⟩ <;>
      simp [rni_after_dest, hc, hrun, exceptIsOk]

theorem rni_after_dest_force (w : World) (src dst : String) (tr : List Op)
    (hc : w.copyRes src dst = .ok ()) :
    (rni_after_dest w src dst true true tr).1
      = tr ++ [Op.copyOp src dst, Op.deleteOp src] := by
  cases hd : w.deleteRes src with
  | error e => simp [rni_after_dest, hc, hd]
  | ok v => simp [rni_after_dest, hc, hd]

/-! ## Concrete worlds used by witnesses and counterexamples -/

/-- Registry contains only "y"; nothing running; copies and deletes succeed. -/
def Wdry : World :=
  { tags := .ok [⟨"y", none⟩]
    ps := .failStatus "404"
    copyRes := fun _ _ => .ok ()
    deleteRes := fun _ => .ok () }

/-- Empty registry; "a" reported running; copies and deletes succeed. -/
def Wrun : World :=
  { tags := .ok []
    ps := .okStatus (some ⟨some [⟨some "a"⟩]⟩)
    copyRes := fun _ _ => .ok ()
    deleteRes := fun _ => .ok () }

/-- Registry contains only "x"; "x" reported running; copies and deletes
succeed — the overwrite-of-self scenario. -/
def Wboth : World :=
  { tags := .ok [⟨"x", none⟩]
    ps := .okStatus (some ⟨some [⟨some "x"⟩]⟩)
    copyRes := fun _ _ => .ok ()
    deleteRes := fun _ => .ok () }

/-- Empty registry; nothing running; copies and deletes succeed. -/
def Wsame : World :=
  { tags := .ok []
    ps := .failStatus "404"
    copyRes := fun _ _ => .ok ()
    deleteRes := fun _ => .ok () }

/-- Registry contains only "x"; nothing running; user selects index 0 and
enters "x" — the interactive source-equals-destination scenario. -/
def WIx : World :=
  { tags := .ok [⟨"x", none⟩]
    ps := .failStatus "404"
    copyRes := fun _ _ => .ok ()
    deleteRes := fun _ => .ok () }

/-- User input for the `WIx` scenario. -/
def UIx : UserInput := ⟨0, "x", false, false, false⟩

/-! ## Claim C4 -/

/-- Claim C4 (confirmed): whenever the trimmed destination passes
validation, the non-interactive workflow with `dry_run` set returns success
with an empty operation trace — no existence check, copy, delete or running
check — regardless of every other flag and of the world. -/
theorem nonInteractive_dry_run_no_ops (w : World) (f t : String)
    (dod force ucf ow : Bool)
    (hv : validate_model_name (trimString t) = .ok ()) :
    run_non_interactive w f t dod force true ucf ow = ([], .ok ()) := by
  simp [run_non_interactive, hv]

/-- Witness for C4 at a concrete input. -/
theorem nonInteractive_dry_run_no_ops_witness :
    run_non_interactive Wdry "a" "b" true true true true true = ([], .ok ()) :=
  nonInteractive_dry_run_no_ops Wdry "a" "b" true true true true (by decide)

/-! ## Claim C2 -/

/-- Counterexample to C2 as stated: the destination "y" is present in the
registry listing and `overwrite` is false, yet with `dry_run` set the
workflow returns success (with no operations) instead of failing with the
destination-exists error. -/
theorem nonInteractive_dest_exists_cex :
    Wdry.tags = .ok [⟨"y", none⟩] ∧
    run_non_interactive Wdry "a" "y" false false true false false = ([], .ok ()) :=
  ⟨rfl, by decide⟩

/-- Claim C2 (corrected): when `dry_run` is false and the trimmed
destination passes validation, if the destination is in the registry
listing and `overwrite` is false the workflow fails with the distinct
destination-exists error after only the existence check — no delete call
and no copy call. -/
theorem nonInteractive_dest_exists_no_overwrite (w : World) (f t : String)
    (dod force ucf : Bool) (models : List ModelInfo)
    (hv : validate_model_name (trimString t) = .ok ())
    (htags : w.tags = .ok models)
    (hex : models.any (·.name == trimString t) = true) :
    run_non_interactive w f t dod force false ucf false
      = ([Op.checkExists (trimString t)],
         .error (.destinationExists (trimString t))) ∧
    (∀ n, Op.deleteOp n ∉ (run_non_interactive w f t dod force false ucf false).1) ∧
    (∀ a b, Op.copyOp a b ∉ (run_non_interactive w f t dod force false ucf false).1) := by
  have h : run_non_interactive w f t dod force false ucf false
      = ([Op.checkExists (trimString t)],
         .error (.destinationExists (trimString t))) := by
    simp [run_non_interactive, hv, htags, hex]
  refine ⟨h, ?_, ?_⟩
  · intro n
    rw [h]
    simp
  · intro a b
    rw [h]
    simp

/-- Witness for C2 at a concrete input. -/
theorem nonInteractive_dest_exists_no_overwrite_witness :
    run_non_interactive Wdry "a" "y" false false false false false
      = ([Op.checkExists (trimString "y")],
         .error (.destinationExists (trimString "y"))) :=
  (nonInteractive_dest_exists_no_overwrite Wdry "a" "y" false false false
    [⟨"y", none⟩] (by decide) rfl (by decide)).1

/-! ## Claim C3 -/

/-- Counterexample to C3 as stated: destination "y" exists and `overwrite`
is true, but with `delete_original` and `force` also set the successful
workflow issues two delete operations (destination before the copy, source
after it), so it does not issue exactly one delete operation. -/
theorem nonInteractive_overwrite_two_deletes_cex :
    Wdry.tags = .ok [⟨"y", none⟩] ∧
    (run_non_interactive Wdry "a" "y" true true false false true).1
      = [Op.checkExists "y", Op.deleteOp "y", Op.copyOp "a" "y", Op.deleteOp "a"] ∧
    ((run_non_interactive Wdry "a" "y" true true false false true).1.filter
        isDeleteOp).length = 2 :=
  ⟨rfl, by decide, by decide⟩

/-- Claim C3 (corrected): when `dry_run` is false and the trimmed
destination validates, if the destination exists and `overwrite` is true
then the trace up to the copy call is exactly the existence check followed
by one delete, targeting the destination; and if that delete fails the
workflow aborts with no copy call at all. -/
theorem nonInteractive_overwrite_delete_before_copy (w : World) (f t : String)
    (dod force ucf : Bool) (models : List ModelInfo)
    (hv : validate_model_name (trimString t) = .ok ())
    (htags : w.tags = .ok models)
    (hex : models.any (·.name == trimString t) = true) :
    (w.deleteRes (trimString t) = .ok () →
      ∃ rest, (run_non_interactive w f t dod force false ucf true).1
        = Op.checkExists (trimString t) :: Op.deleteOp (trimString t)
            :: Op.copyOp (trimString f) (trimString t) :: rest) ∧
    (∀ e, w.deleteRes (trimString t) = .error e →
      run_non_interactive w f t dod force false ucf true
        = ([Op.checkExists (trimString t), Op.deleteOp (trimString t)],
           .error (.deleteDestFailed (trimString t) e))) := by
  constructor
  · intro hd
    obtain ⟨rest, htr⟩ := rni_after_dest_trace w (trimString f) (trimString t)
      dod force [Op.checkExists (trimString t), Op.deleteOp (trimString t)]
    refine ⟨rest, ?_⟩
    have hrun_eq : run_non_interactive w f t dod force false ucf true
        = rni_after_dest w (trimString f) (trimString t) dod force
            [Op.checkExists (trimString t), Op.deleteOp (trimString t)] := by
      simp [run_non_interactive, hv, htags, hex, hd]
    rw [hrun_eq, htr]
    simp
  · intro e hd
    simp [run_non_interactive, hv, htags, hex, hd]

/-- Witness for C3 at a concrete input. -/
theorem nonInteractive_overwrite_delete_before_copy_witness :
    ∃ rest, (run_non_interactive Wdry "a" "y" true true false false true).1
      = Op.checkExists (trimString "y") :: Op.deleteOp (trimString "y")
          :: Op.copyOp (trimString "a") (trimString "y") :: rest :=
  (nonInteractive_overwrite_delete_before_copy Wdry "a" "y" true true false
    [⟨"y", none⟩] (by decide) rfl (by decide)).1 rfl

/-! ## Claim C1 -/

/-- Counterexample to C1 as stated: running the non-interactive workflow
with source and destination both "x" (which exists in the listing and is
reported running), `delete_original` true, `force` false and `overwrite`
true, the workflow does fail — but only after issuing a delete that targets
the source's name (the overwrite-delete of the destination, which here
coincides with the source), contradicting "fails without issuing any delete
of the source". -/
theorem nonInteractive_running_guard_cex :
    effRunning Wboth "x" = true ∧
    exceptIsOk (run_non_interactive Wboth "x" "x" true false false false true).2 = false ∧
    Op.deleteOp "x" ∈ (run_non_interactive Wboth "x" "x" true false false false true).1 := by
  decide

/-- Claim C1 (corrected): provided `dry_run` is false and the trimmed source
and destination differ: (1) with `delete_original` true, `force` false and
the effective loaded-model check reporting the source running, the workflow
fails and its trace contains no delete of the source; (2) with `force` true
(and the run reaching the delete step: destination valid, listing
available, an existing destination only with a succeeding overwrite-delete,
copy succeeding), the running check is never issued and the delete of the
source is attempted — regardless of the running status recorded in the
world. -/
theorem nonInteractive_running_guard (w : World) (f t : String) (ucf ow : Bool)
    (hne : trimString f ≠ trimString t) :
    (effRunning w (trimString f) = true →
      exceptIsOk (run_non_interactive w f t true false false ucf ow).2 = false ∧
      Op.deleteOp (trimString f) ∉ (run_non_interactive w f t true false false ucf ow).1) ∧
    (∀ models : List ModelInfo,
      validate_model_name (trimString t) = .ok () →
      w.tags = .ok models →
      (models.any (·.name == trimString t) = true →
        ow = true ∧ w.deleteRes (trimString t) = .ok ()) →
      w.copyRes (trimString f) (trimString t) = .ok () →
      Op.deleteOp (trimString f) ∈ (run_non_interactive w f t true true false ucf ow).1 ∧
      ∀ n, Op.runningCheck n ∉ (run_non_interactive w f t true true false ucf ow).1) := by
  constructor
  · intro hrun
    cases hv : validate_model_name (trimString t) with
    | error e => constructor <;> simp [run_non_interactive, hv, exceptIsOk]
    | ok u =>
      cases htags : w.tags with
      | error e => constructor <;> simp [run_non_interactive, hv, htags, exceptIsOk]
      | ok models =>
        cases hex : models.any (·.name == trimString t) with
        | false =>
          obtain ⟨extra, h1, h2, h3⟩ := rni_after_dest_guard w (trimString f)
            (trimString t) [Op.checkExists (trimString t)] hrun
          have hrun_eq : run_non_interactive w f t true false false ucf ow
              = rni_after_dest w (trimString f) (trimString t) true false
                  [Op.checkExists (trimString t)] := by
            simp [run_non_interactive, hv, htags, hex]
          rw [hrun_eq, h1]
          refine ⟨h3, ?_⟩
          intro hmem
          rcases List.mem_append.mp hmem with h | h
          · simp at h
          · exact h2 _ h
        | true =>
          cases ow with
          | false =>
            constructor <;> simp [run_non_interactive, hv, htags, hex, exceptIsOk]
          | true =>
            cases hd : w.deleteRes (trimString t) with
            | error e =>
              constructor
              · simp [run_non_interactive, hv, htags, hex, hd, exceptIsOk]
              · simp [run_non_interactive, hv, htags, hex, hd, hne]
            | ok v =>
              obtain ⟨extra, h1, h2, h3⟩ := rni_after_dest_guard w (trimString f)
                (trimString t)
                [Op.checkExists (trimString t), Op.deleteOp (trimString t)] hrun
              have hrun_eq : run_non_interactive w f t true false false ucf true
                  = rni_after_dest w (trimString f) (trimString t) true false
                      [Op.checkExists (trimString t), Op.deleteOp (trimString t)] := by
                simp [run_non_interactive, hv, htags, hex, hd]
              rw [hrun_eq, h1]
              refine ⟨h3, ?_⟩
              intro hmem
              rcases List.mem_append.mp hmem with h | h
              · simp [hne] at h
              · exact h2 _ h
  · intro models hv htags hcond hcopy
    cases hex : models.any (·.name == trimString t) with
    | false =>
      have htr := rni_after_dest_force w (trimString f) (trimString t)
        [Op.checkExists (trimString t)] hcopy
      have hrun_eq : run_non_interactive w f t true true false ucf ow
          = rni_after_dest w (trimString f) (trimString t) true true
              [Op.checkExists (trimString t)] := by
        simp [run_non_interactive, hv, htags, hex]
      rw [hrun_eq, htr]
      constructor
      · simp
      · intro n
        simp
    | true =>
      obtain ⟨how, hd⟩ := hcond hex
      subst how
      have htr := rni_after_dest_force w (trimString f) (trimString t)
        [Op.checkExists (trimString t), Op.deleteOp (trimString t)] hcopy
      have hrun_eq : run_non_interactive w f t true true false ucf true
          = rni_after_dest w (trimString f) (trimString t) true true
              [Op.checkExists (trimString t), Op.deleteOp (trimString t)] := by
        simp [run_non_interactive, hv, htags, hex, hd]
      rw [hrun_eq, htr]
      constructor
      · simp
      · intro n
        simp

/-- Witness for C1 at concrete inputs: with source "a" reported running and
destination "b" absent, the `force` = false run fails, and the `force` =
true run issues the source delete. -/
theorem nonInteractive_running_guard_witness :
    exceptIsOk (run_non_interactive Wrun "a" "b" true false false false false).2 = false ∧
    Op.deleteOp (trimString "a") ∈
      (run_non_interactive Wrun "a" "b" true true false false false).1 := by
  have h := nonInteractive_running_guard Wrun "a" "b" false false (by decide)
  exact ⟨(h.1 (by decide)).1, (h.2 [] (by decide) rfl (by decide) rfl).1⟩

/-! ## Claim C10 -/

/-- Claim C10 (confirmed): in interactive mode, whenever the trimmed entered
destination equals the selected model's name, the run fails with the
name-equality error and its trace is just the initial listing — no
existence check, delete or copy; and the non-interactive workflow has no
such check: with source and destination both "x" it proceeds through the
existence check to the copy and succeeds. -/
theorem interactive_source_equals_dest_guard :
    (∀ (w : World) (ui : UserInput) (models : List ModelInfo),
      w.tags = .ok models → models.isEmpty = false →
      trimString ui.enteredName
        = ((sortByLe modelLe models).getD ui.selectIdx ⟨"", none⟩).name →
      run_interactive w ui = ([Op.listTags], .error .destEqualsSource)) ∧
    run_non_interactive Wsame "x" "x" false false false false false
      = ([Op.checkExists "x", Op.copyOp "x" "x"], .ok ()) := by
  constructor
  · intro w ui models htags hemp hname
    simp [run_interactive, htags, hemp, hname]
  · decide

/-- Witness for C10 at a concrete input: one model "x", index 0 selected,
"x" entered. -/
theorem interactive_source_equals_dest_guard_witness :
    run_interactive WIx UIx = ([Op.listTags], .error .destEqualsSource) :=
  interactive_source_equals_dest_guard.1 WIx UIx [⟨"x", none⟩] rfl (by decide) (by decide)

end OllamaRenamer
